import Mathlib

/-!
Verification development for the chess-game UI component (ChessGame.js).

The component delegates chess legality to an external rules engine and
implements: a bot move-selection heuristic with four difficulty tiers, a
move-suggestion advisor, a material-based win-probability display, a move
history, and reset/undo actions.  Everything below is a shallow embedding
of those functions; machine randomness (Math.random) is modelled by an
explicit index parameter, and React state updates by explicit state
passing.
-/

/-- A verbose move as produced by the rules engine: origin square,
destination square, flag characters (e.g. 'c' capture, 'e' en passant,
'p' promotion, 'k' kingside-castle), and SAN text.  JS `flags` is a
string scanned with `includes(char)`; it is modelled as a list of
characters scanned with `List.contains`. -/
structure Move where
  fromSq : String
  toSq : String
  flags : List Char
  san : String
deriving DecidableEq, Repr, Inhabited

/-- The accumulator object `{ move, score }` used by the Grand-Master
reduce in `makeBotMove` and by `suggestMove`. -/
structure BestMove where
  move : Move
  score : Int
deriving DecidableEq, Repr

/-- The score a move receives in the Grand-Master tier and in
`suggestMove`: 2 for capture/en-passant, 1 for promotion or the 'k'
flag, 0 otherwise. -/
def moveScore (m : Move) : Int :=
  if m.flags.contains 'c' || m.flags.contains 'e' then 2
  else if m.flags.contains 'p' || m.flags.contains 'k' then 1
  else 0

/-- Bot move choice, from `makeBotMove` in ChessGame.js (lines 57-84).
`botDifficulty` selects the tier; `randIndex` models
`Math.floor(Math.random() * moves.length)`.  When the legal-move list is
empty the function performs no move (`none`). -/
def makeBotMove (botDifficulty : Nat) (moves : List Move) (randIndex : Nat) :
    Option Move :=
  match moves with
  | [] => none
  | m0 :: _ =>
    some (match botDifficulty with
      | 1 => moves.getD randIndex m0
      | 2 => moves.foldl (fun (best current : Move) =>
          if current.flags.contains 'c' || current.flags.contains 'e' then
            current
          else best) (moves.getD randIndex m0)
      | 3 => (moves.foldl (fun (best : BestMove) (current : Move) =>
          let score : Int :=
            if current.flags.contains 'c' || current.flags.contains 'e' then 2
            else if current.flags.contains 'p' || current.flags.contains 'k' then 1
            else 0
          if score > best.score then { move := current, score := score }
          else best) { move := m0, score := -1 }).move
      | _ => moves.getD randIndex m0)

/-- Move suggestion, from `suggestMove` in ChessGame.js (lines 86-97).
`prev` is the current `suggestedMove` React state; when the legal-move
list is empty `setSuggestedMove` is not called, so the previous state is
returned unchanged. -/
def suggestMove (prev : Option Move) (moves : List Move) : Option Move :=
  match moves with
  | [] => prev
  | m0 :: _ =>
    some ((moves.foldl (fun (best : BestMove) (current : Move) =>
        let score : Int :=
          if current.flags.contains 'c' || current.flags.contains 'e' then 2
          else if current.flags.contains 'p' || current.flags.contains 'k' then 1
          else 0
        if score > best.score then { move := current, score := score }
        else best) { move := m0, score := -1 }).move)

/-- Whether a move carries the capture or en-passant flag (the condition
tested by the Advanced tier and scored 2 by the Grand-Master tier). -/
def isCaptureLike (m : Move) : Bool :=
  m.flags.contains 'c' || m.flags.contains 'e'

/- Concrete moves used for witnesses and counterexamples. -/

/-- A concrete capturing move (flags contain 'c'). -/
def mvA : Move := { fromSq := "d4", toSq := "e5", flags := ['c'], san := "dxe5" }

/-- A second, distinct concrete capturing move. -/
def mvB : Move := { fromSq := "f4", toSq := "e5", flags := ['c'], san := "fxe5" }

/-- A concrete quiet move (no scoring flags). -/
def mvN : Move := { fromSq := "g1", toSq := "f3", flags := ['n'], san := "Nf3" }

/-- A concrete pawn double-step move (flag 'b', no scoring flags). -/
def mvE4 : Move := { fromSq := "e2", toSq := "e4", flags := ['b'], san := "e4" }

/-- A piece in a board snapshot, as returned by the rules engine's
`board()`: a color character ('w' or 'b') and a type character
(p, n, b, r, q, k). -/
structure Piece where
  color : Char
  pieceType : Char
deriving DecidableEq, Repr

/-- The `pieceValues` table of `calculateWinProbability`
(ChessGame.js line 100): pawn 1, knight 3, bishop 3, rook 5, queen 9,
king 0. -/
def pieceValues (t : Char) : Nat :=
  if t = 'p' then 1
  else if t = 'n' then 3
  else if t = 'b' then 3
  else if t = 'r' then 5
  else if t = 'q' then 9
  else 0

/-- A full board snapshot: rows of cells, each empty or a piece. -/
def Board : Type := List (List (Option Piece))

/-- The per-side material sums accumulated by the nested `forEach` of
`calculateWinProbability` (ChessGame.js lines 101-114):
(whiteScore, blackScore). -/
def materialScores (board : Board) : Nat × Nat :=
  board.foldl (fun acc row =>
    row.foldl (fun (acc : Nat × Nat) (piece : Option Piece) =>
      match piece with
      | none => acc
      | some p =>
        if p.color = 'w' then (acc.1 + pieceValues p.pieceType, acc.2)
        else (acc.1, acc.2 + pieceValues p.pieceType)) acc) (0, 0)

/-- The displayed probabilities computed by `calculateWinProbability`
(ChessGame.js lines 116-118):
`whiteProbability = Math.round(whiteScore / totalScore * 100)`,
`blackProbability = 100 - whiteProbability`.  When `totalScore = 0` the
JS division yields `NaN` (0/0) and `Math.round(NaN)` is `NaN`; the
undefined result is modelled as `none`. -/
def calculateWinProbability (board : Board) : Option (Int × Int) :=
  let whiteScore := (materialScores board).1
  let blackScore := (materialScores board).2
  let totalScore := whiteScore + blackScore
  if totalScore = 0 then none
  else
    let whiteProbability : Int :=
      round (((whiteScore : ℚ) / (totalScore : ℚ)) * 100)
    some (whiteProbability, 100 - whiteProbability)

/-- The point difference set by `calculateWinProbability`
(ChessGame.js line 119): whiteScore - blackScore. -/
def pointDifference (board : Board) : Int :=
  ((materialScores board).1 : Int) - ((materialScores board).2 : Int)

/-- An empty board row. -/
def emptyRow : List (Option Piece) := List.replicate 8 none

/-- A board snapshot holding only the two kings (e1, e8). -/
def kingsOnlyBoard : Board :=
  [ [none, none, none, none, some { color := 'b', pieceType := 'k' },
     none, none, none],
    emptyRow, emptyRow, emptyRow, emptyRow, emptyRow, emptyRow,
    [none, none, none, none, some { color := 'w', pieceType := 'k' },
     none, none, none] ]

/-- History update, from `updateMoveHistory` in ChessGame.js
(lines 189-199).  `moveNumber` is computed from the number of history
rows; a player move appends a new row, a bot move is appended to the
last row.  (When the bot branch runs on an empty history, JS reads
`prevHistory[-1]` as `undefined`, rendered "undefined" by the template
literal; that case never occurs since a bot move always follows a
player row.) -/
def updateMoveHistory (prevHistory : List String) (san : String)
    (player : String) : List String :=
  let moveNumber := prevHistory.length / 2 + 1
  if player = "player" then
    prevHistory ++ [toString moveNumber ++ ". " ++ san]
  else
    let lastMove := prevHistory.getLastD "undefined"
    prevHistory.dropLast ++ [lastMove ++ " " ++ san]

/-- The React state of the component: one field per `useState` hook
(ChessGame.js lines 7-16).  The rules-engine position is held as its
FEN serialization; `winProbability` is `none` when the stored value is
the JS `NaN` pair. -/
structure GameState where
  game : String
  selectedSquare : Option String
  suggestedMove : Option Move
  botDifficulty : Nat
  errorMessage : String
  winProbability : Option (Int × Int)
  pointDiff : Int
  darkMode : Bool
  moveHistory : List String
  gameStatus : String
deriving DecidableEq, Repr

/-- The FEN of the starting position created by `new Chess()`. -/
def startFen : String :=
  "rnbqkbnr/pppppppp/8/8/8/8/PPPPPPPP/RNBQKBNR w KQkq - 0 1"

/-- Outcome of the engine call `game.move({from, to, promotion: 'q'})`:
the engine returns a move object and a new position, returns a falsy
result, or throws. -/
inductive EngineMoveResult where
  | legal : Move → String → EngineMoveResult
  | rejected : EngineMoveResult
  | thrown : EngineMoveResult
deriving DecidableEq, Repr

/-- Move attempt, from `makeMove` in ChessGame.js (lines 24-42).  The
returned Bool records whether `setTimeout(() => makeBotMove(), 300)`
was scheduled.  On a falsy engine result or a thrown error the error
message is set, the selection cleared, and nothing else changes. -/
def makeMove (s : GameState) (r : EngineMoveResult) : GameState × Bool :=
  match r with
  | .legal mv newFen =>
    ({ s with game := newFen
              selectedSquare := none
              errorMessage := ""
              moveHistory := updateMoveHistory s.moveHistory mv.san "player" },
     true)
  | .rejected =>
    ({ s with errorMessage := "Invalid move", selectedSquare := none }, false)
  | .thrown =>
    ({ s with errorMessage := "Invalid move", selectedSquare := none }, false)

/-- Reset, from `resetGame` in ChessGame.js (lines 201-207): fresh
engine, selection cleared, history/status/error cleared; no other state
is touched. -/
def resetGame (s : GameState) : GameState :=
  { s with game := startFen
           selectedSquare := none
           moveHistory := []
           gameStatus := ""
           errorMessage := "" }

/-- The state visible to `undoMove`: the rules engine's stack of
applied moves plus the history rows. -/
structure UndoState where
  applied : List Move
  moveHistory : List String
deriving DecidableEq, Repr

/-- Modelled from the spec: the external rules engine's `undo()`
("undo last applied move", §6) — pops the most recently applied move
and returns it, or returns null (`none`) and leaves the stack alone
when no move has been applied. -/
def chessUndo (applied : List Move) : Option Move × List Move :=
  match applied.getLast? with
  | none => (none, applied)
  | some m => (some m, applied.dropLast)

/-- Undo, from `undoMove` in ChessGame.js (lines 209-216): one engine
undo; if it returned a move, a second engine undo and removal of the
last history row. -/
def undoMove (s : UndoState) : UndoState :=
  let r := chessUndo s.applied
  match r.1 with
  | none => s
  | some _ =>
    let r2 := chessUndo r.2
    { applied := r2.2, moveHistory := s.moveHistory.dropLast }

/-- The arrow function of the Advanced-tier reduce (ChessGame.js
lines 66-68), as a named function (definitionally equal to the inline
lambda in `makeBotMove`). -/
def advStep (best current : Move) : Move :=
  if current.flags.contains 'c' || current.flags.contains 'e' then current
  else best

/-- The arrow function of the Grand-Master-tier reduce (ChessGame.js
lines 71-75) and of the `suggestMove` reduce (lines 90-94), as a named
function (definitionally equal to the inline lambdas). -/
def gmStep (best : BestMove) (current : Move) : BestMove :=
  if moveScore current > best.score then
    { move := current, score := moveScore current }
  else best

/-- A concrete undo-state with one applied move. -/
def undoSample1 : UndoState :=
  { applied := [mvE4], moveHistory := ["1. e4"] }

/-- A concrete undo-state with three applied moves and two history
rows. -/
def undoSample3 : UndoState :=
  { applied := [mvE4, mvN, mvA], moveHistory := ["1. e4 Nf3", "2. dxe5"] }

/-- A concrete component state used as a witness input. -/
def sampleState : GameState :=
  { game := startFen
    selectedSquare := some "e2"
    suggestedMove := none
    botDifficulty := 0
    errorMessage := ""
    winProbability := some (50, 50)
    pointDiff := 0
    darkMode := false
    moveHistory := []
    gameStatus := "" }

/- ### Bridge lemmas: the inline reduces equal the named step folds -/

lemma makeBotMove_two_cons (m0 : Move) (ms : List Move) (r : Nat) :
    makeBotMove 2 (m0 :: ms) r
      = some ((m0 :: ms).foldl advStep ((m0 :: ms).getD r m0)) := rfl

lemma makeBotMove_three_cons (m0 : Move) (ms : List Move) (r : Nat) :
    makeBotMove 3 (m0 :: ms) r
      = some (((m0 :: ms).foldl gmStep { move := m0, score := -1 }).move) := rfl

lemma suggestMove_cons (prev : Option Move) (m0 : Move) (ms : List Move) :
    suggestMove prev (m0 :: ms)
      = some (((m0 :: ms).foldl gmStep { move := m0, score := -1 }).move) := rfl

lemma moveScore_nonneg (m : Move) : 0 ≤ moveScore m := by
  unfold moveScore
  split_ifs <;> norm_num

/- ### Characterization of the Advanced-tier fold: it keeps the last
capture-like move of the list, or the seed when none exists. -/

lemma advFold_last (l : List Move) (seed : Move) :
    (l.foldl advStep seed = seed ∧ ∀ x ∈ l, isCaptureLike x = false)
    ∨ (∃ pre post, l = pre ++ (l.foldl advStep seed) :: post ∧
        isCaptureLike (l.foldl advStep seed) = true ∧
        ∀ x ∈ post, isCaptureLike x = false) := by
  induction l using List.reverseRecOn with
  | nil => exact Or.inl ⟨rfl, by simp⟩
  | append_singleton l x ih =>
    have hfold : (l ++ [x]).foldl advStep seed
        = if isCaptureLike x then x else l.foldl advStep seed := by
      rw [List.foldl_append]; rfl
    cases hx : isCaptureLike x with
    | true =>
      right
      rw [hfold, hx, if_pos rfl]
      exact ⟨l, [], by simp, hx, by simp⟩
    | false =>
      have hfold' : (l ++ [x]).foldl advStep seed = l.foldl advStep seed := by
        rw [hfold, hx]; simp
      rcases ih with ⟨heq, hall⟩ | ⟨pre, post, hdec, hcap, hpost⟩
      · left
        refine ⟨by rw [hfold', heq], fun y hy => ?_⟩
        rcases List.mem_append.mp hy with h | h
        · exact hall y h
        · simp only [List.mem_singleton] at h
          exact h ▸ hx
      · right
        refine ⟨pre, post ++ [x], ?_, by rw [hfold']; exact hcap,
          fun y hy => ?_⟩
        · rw [hfold']
          conv_lhs => rw [hdec]
          simp
        · rcases List.mem_append.mp hy with h | h
          · exact hpost y h
          · simp only [List.mem_singleton] at h
            exact h ▸ hx

/- ### Characterization of the Grand-Master fold: seeded with the
running move `b` at its own score, it returns the earliest move of
`b :: l` with the maximal score. -/

lemma gmFold_spec (l : List Move) (b : Move) :
    ∃ m pre post,
      l.foldl gmStep { move := b, score := moveScore b }
        = { move := m, score := moveScore m } ∧
      b :: l = pre ++ m :: post ∧
      (∀ x ∈ pre, moveScore x < moveScore m) ∧
      (∀ x ∈ post, moveScore x ≤ moveScore m) := by
  induction l generalizing b with
  | nil => exact ⟨b, [], [], rfl, rfl, by simp, by simp⟩
  | cons x xs ih =>
    have hstep : (x :: xs).foldl gmStep { move := b, score := moveScore b }
        = xs.foldl gmStep (gmStep { move := b, score := moveScore b } x) := rfl
    by_cases hx : moveScore x > moveScore b
    · have h1 : gmStep { move := b, score := moveScore b } x
          = { move := x, score := moveScore x } := by
        unfold gmStep; simp [hx]
      rcases ih x with ⟨m, pre, post, hfold, hdec, hpre, hpost⟩
      have hxm : moveScore x ≤ moveScore m := by
        cases pre with
        | nil =>
          have : x = m := by
            simpa using congrArg (fun t => t.headI) hdec
          exact this ▸ le_refl _
        | cons p ps =>
          have hp : x = p := by
            simpa using congrArg (fun t => t.headI) hdec
          exact le_of_lt (hp ▸ hpre p (by simp))
      refine ⟨m, b :: pre, post, ?_, ?_, ?_, hpost⟩
      · rw [hstep, h1]; exact hfold
      · rw [List.cons_append, hdec]
      · intro y hy
        rcases List.mem_cons.mp hy with rfl | hy'
        · exact lt_of_lt_of_le hx hxm
        · exact hpre y hy'
    · have h1 : gmStep { move := b, score := moveScore b } x
          = { move := b, score := moveScore b } := by
        unfold gmStep; simp [hx]
      rcases ih b with ⟨m, pre, post, hfold, hdec, hpre, hpost⟩
      cases pre with
      | nil =>
        have hm : b = m := by
          simpa using congrArg (fun t => t.headI) hdec
        have hxs : xs = post := by
          simpa using congrArg (fun t => t.tail) hdec
        refine ⟨m, [], x :: xs, ?_, ?_, by simp, ?_⟩
        · rw [hstep, h1]; exact hfold
        · rw [hm]; rfl
        · intro y hy
          rcases List.mem_cons.mp hy with rfl | hy'
          · exact hm ▸ le_of_not_lt hx
          · exact hpost y (hxs ▸ hy')
      | cons p ps =>
        have hp : p = b := by
          simpa using (congrArg (fun t => t.headI) hdec).symm
        have hxs : xs = ps ++ m :: post := by
          simpa using congrArg (fun t => t.tail) hdec
        have hbm : moveScore b < moveScore m := hp ▸ hpre p (by simp)
        refine ⟨m, b :: x :: ps, post, ?_, ?_, ?_, hpost⟩
        · rw [hstep, h1]; exact hfold
        · rw [List.cons_append, List.cons_append, ← hxs]
        · intro y hy
          rcases List.mem_cons.mp hy with rfl | hy'
          · exact hbm
          · rcases List.mem_cons.mp hy' with rfl | hy''
            · exact lt_of_le_of_lt (le_of_not_lt hx) hbm
            · exact hpre y (hp ▸ List.mem_cons_of_mem p hy'')

/-- On a non-empty list, the Grand-Master tier returns the earliest
move with the maximal score: the `-1` sentinel is immediately replaced
by the first move at its real score. -/
lemma makeBotMove_three_spec (m0 : Move) (ms : List Move) (r : Nat) :
    ∃ m pre post,
      makeBotMove 3 (m0 :: ms) r = some m ∧
      m0 :: ms = pre ++ m :: post ∧
      (∀ x ∈ pre, moveScore x < moveScore m) ∧
      (∀ x ∈ post, moveScore x ≤ moveScore m) := by
  have h0 : (m0 :: ms).foldl gmStep { move := m0, score := -1 }
      = ms.foldl gmStep (gmStep { move := m0, score := -1 } m0) := rfl
  have h1 : gmStep { move := m0, score := -1 } m0
      = { move := m0, score := moveScore m0 } := by
    unfold gmStep
    have h2 : (-1 : Int) < moveScore m0 :=
      lt_of_lt_of_le (by norm_num) (moveScore_nonneg m0)
    simp [h2]
  rcases gmFold_spec ms m0 with ⟨m, pre, post, hfold, hdec, hpre, hpost⟩
  exact ⟨m, pre, post,
    by rw [makeBotMove_three_cons, h0, h1, hfold], hdec, hpre, hpost⟩

/- ### Helpers for the engine undo model -/

lemma chessUndo_fst (l : List Move) : (chessUndo l).1 = l.getLast? := by
  unfold chessUndo
  cases hl : l.getLast? <;> simp

lemma chessUndo_snd (l : List Move) : (chessUndo l).2 = l.dropLast := by
  unfold chessUndo
  cases hl : l.getLast? with
  | none =>
    have : l = [] := List.getLast?_eq_none_iff.mp hl
    simp [this]
  | some m => simp

/-- C1: on any identical non-empty legal-move list, `suggestMove` and
the Grand-Master tier of `makeBotMove` select the same move: both fold
the list with the same 2/1/0 flag scoring, strict-greater-than
replacement, and the same first-element sentinel. -/
theorem suggestMove_eq_grandMaster (prev : Option Move) (moves : List Move)
    (r : Nat) (h : moves ≠ []) :
    suggestMove prev moves = makeBotMove 3 moves r := by
  cases moves with
  | nil => exact absurd rfl h
  | cons m0 ms => rfl

theorem suggestMove_eq_grandMaster_witness :
    ([mvE4, mvA] : List Move) ≠ [] ∧
    suggestMove (some mvN) [mvE4, mvA] = makeBotMove 3 [mvE4, mvA] 1 :=
  ⟨by decide, suggestMove_eq_grandMaster (some mvN) [mvE4, mvA] 1 (by decide)⟩

/-- C2: on any non-empty legal-move list the Grand-Master tier returns
a move of maximal 2/1/0 flag score; every earlier move scores strictly
less (earliest-wins tie-break) and every later move scores no more,
with the first move as the default seeded against the -1 sentinel. -/
theorem grandMaster_selects_first_max (moves : List Move) (r : Nat)
    (h : moves ≠ []) :
    ∃ m pre post,
      makeBotMove 3 moves r = some m ∧
      moves = pre ++ m :: post ∧
      (∀ x ∈ moves, moveScore x ≤ moveScore m) ∧
      (∀ x ∈ pre, moveScore x < moveScore m) ∧
      (∀ x ∈ post, moveScore x ≤ moveScore m) := by
  cases moves with
  | nil => exact absurd rfl h
  | cons m0 ms =>
    rcases makeBotMove_three_spec m0 ms r with
      ⟨m, pre, post, heq, hdec, hpre, hpost⟩
    refine ⟨m, pre, post, heq, hdec, ?_, hpre, hpost⟩
    intro x hx
    rw [hdec] at hx
    rcases List.mem_append.mp hx with h1 | h1
    · exact le_of_lt (hpre x h1)
    · rcases List.mem_cons.mp h1 with rfl | h2
      · exact le_refl _
      · exact hpost x h2

theorem grandMaster_selects_first_max_witness :
    ([mvN, mvA, mvB] : List Move) ≠ [] ∧
    ∃ m pre post,
      makeBotMove 3 [mvN, mvA, mvB] 0 = some m ∧
      [mvN, mvA, mvB] = pre ++ m :: post ∧
      (∀ x ∈ [mvN, mvA, mvB], moveScore x ≤ moveScore m) ∧
      (∀ x ∈ pre, moveScore x < moveScore m) ∧
      (∀ x ∈ post, moveScore x ≤ moveScore m) :=
  ⟨by decide, grandMaster_selects_first_max [mvN, mvA, mvB] 0 (by decide)⟩

/-- C3: whenever the legal-move list contains at least one
capture/en-passant move, the Advanced tier returns a
capture/en-passant move, whatever the uniform-random fallback seed. -/
theorem advanced_returns_capture (moves : List Move) (r : Nat)
    (h : ∃ x ∈ moves, isCaptureLike x = true) :
    ∃ m, makeBotMove 2 moves r = some m ∧ isCaptureLike m = true := by
  cases moves with
  | nil => simp at h
  | cons m0 ms =>
    rcases advFold_last (m0 :: ms) ((m0 :: ms).getD r m0) with
      ⟨heq, hall⟩ | ⟨pre, post, hdec, hcap, hpost⟩
    · rcases h with ⟨x, hx, hxc⟩
      rw [hall x hx] at hxc
      cases hxc
    · exact ⟨_, makeBotMove_two_cons m0 ms r, hcap⟩

theorem advanced_returns_capture_witness :
    (∃ x ∈ [mvN, mvA], isCaptureLike x = true) ∧
    ∃ m, makeBotMove 2 [mvN, mvA] 0 = some m ∧ isCaptureLike m = true :=
  ⟨by decide, advanced_returns_capture [mvN, mvA] 0 (by decide)⟩

/-- C4 counterexample: with two capture moves in the list, the
Advanced tier does NOT keep the first qualifying move of the iteration
order: `List.find?` locates `mvA` first, yet the tier returns `mvB`
(the reduce takes every qualifying move, so the last one wins). -/
theorem advanced_first_qualifying_cex :
    List.find? (fun m => isCaptureLike m) [mvA, mvB] = some mvA ∧
    makeBotMove 2 [mvA, mvB] 0 = some mvB ∧
    mvB ≠ mvA := by decide

/-- C4 amended: on any legal-move list containing two or more
capture/en-passant moves, the Advanced tier selects the LAST
qualifying move in iteration order (a later qualifying move always
replaces an earlier one, since the reduce keeps every qualifying
move), regardless of the random seed. -/
theorem advanced_selects_last_qualifying (moves : List Move) (r : Nat)
    (h : 2 ≤ (moves.filter (fun m => isCaptureLike m)).length) :
    ∃ m pre post,
      makeBotMove 2 moves r = some m ∧
      moves = pre ++ m :: post ∧
      isCaptureLike m = true ∧
      (∃ y ∈ pre, isCaptureLike y = true) ∧
      (∀ x ∈ post, isCaptureLike x = false) := by
  cases moves with
  | nil => simp at h
  | cons m0 ms =>
    rcases advFold_last (m0 :: ms) ((m0 :: ms).getD r m0) with
      ⟨heq, hall⟩ | ⟨pre, post, hdec, hcap, hpost⟩
    · exfalso
      have hnil : (m0 :: ms).filter (fun m => isCaptureLike m) = [] :=
        List.filter_eq_nil_iff.mpr (fun a ha => by simp [hall a ha])
      rw [hnil] at h
      simp at h
    · refine ⟨(m0 :: ms).foldl advStep ((m0 :: ms).getD r m0), pre, post,
        makeBotMove_two_cons m0 ms r, hdec, hcap, ?_, hpost⟩
      by_contra hno
      push_neg at hno
      have hfp : pre.filter (fun m => isCaptureLike m) = [] :=
        List.filter_eq_nil_iff.mpr (fun a ha => hno a ha)
      have hfq : post.filter (fun m => isCaptureLike m) = [] :=
        List.filter_eq_nil_iff.mpr (fun a ha => by simp [hpost a ha])
      rw [hdec, List.filter_append, hfp] at h
      rw [List.filter_cons_of_pos hcap, hfq] at h
      simp at h

theorem advanced_selects_last_qualifying_witness :
    2 ≤ (([mvA, mvB] : List Move).filter (fun m => isCaptureLike m)).length ∧
    ∃ m pre post,
      makeBotMove 2 [mvA, mvB] 0 = some m ∧
      [mvA, mvB] = pre ++ m :: post ∧
      isCaptureLike m = true ∧
      (∃ y ∈ pre, isCaptureLike y = true) ∧
      (∀ x ∈ post, isCaptureLike x = false) :=
  ⟨by decide, advanced_selects_last_qualifying [mvA, mvB] 0 (by decide)⟩

/-- C5: with a square selected, when the engine rejects the attempted
move (falsy result or thrown error), `makeMove` sets the error message
to "Invalid move", clears the selection, leaves the position, history
and status unchanged, and schedules no bot reply. -/
theorem makeMove_rejected_effects (s : GameState) (sq : String)
    (r : EngineMoveResult) (_hsel : s.selectedSquare = some sq)
    (hr : r = EngineMoveResult.rejected ∨ r = EngineMoveResult.thrown) :
    (makeMove s r).1.errorMessage = "Invalid move" ∧
    (makeMove s r).1.selectedSquare = none ∧
    (makeMove s r).1.game = s.game ∧
    (makeMove s r).1.moveHistory = s.moveHistory ∧
    (makeMove s r).1.gameStatus = s.gameStatus ∧
    (makeMove s r).2 = false := by
  rcases hr with rfl | rfl <;>
    exact ⟨rfl, rfl, rfl, rfl, rfl, rfl⟩

theorem makeMove_rejected_effects_witness :
    sampleState.selectedSquare = some "e2" ∧
    (EngineMoveResult.rejected = EngineMoveResult.rejected ∨
      EngineMoveResult.rejected = EngineMoveResult.thrown) ∧
    ((makeMove sampleState EngineMoveResult.rejected).1.errorMessage
        = "Invalid move" ∧
      (makeMove sampleState EngineMoveResult.rejected).1.selectedSquare
        = none ∧
      (makeMove sampleState EngineMoveResult.rejected).1.game
        = sampleState.game ∧
      (makeMove sampleState EngineMoveResult.rejected).1.moveHistory
        = sampleState.moveHistory ∧
      (makeMove sampleState EngineMoveResult.rejected).1.gameStatus
        = sampleState.gameStatus ∧
      (makeMove sampleState EngineMoveResult.rejected).2 = false) :=
  ⟨rfl, Or.inl rfl,
    makeMove_rejected_effects sampleState "e2" EngineMoveResult.rejected rfl
      (Or.inl rfl)⟩

/-- C6: on the kings-only board both material scores are 0, and
`calculateWinProbability` computes `0 / 0` — the JS `NaN`, modelled
`none` — instead of a defined 50/50 fallback: the undefined value is
propagated into the displayed probabilities. -/
theorem winProbability_zero_material_undefined :
    materialScores kingsOnlyBoard = (0, 0) ∧
    calculateWinProbability kingsOnlyBoard = none := by decide

/-- C7 counterexample: with exactly one applied move, `undoMove` does
not revert two half-moves — the second engine undo is a no-op, so only
one half-move is reverted. -/
theorem undoMove_two_halfmoves_cex :
    undoSample1.applied ≠ [] ∧
    (undoMove undoSample1).applied.length + 2
      ≠ undoSample1.applied.length := by decide

/-- C7 amended: when at least one move has been applied, `undoMove`
reverts up to two trailing half-moves (exactly two when two or more
have been applied, only one when exactly one has) and removes exactly
one trailing history row; with no applied moves it changes nothing. -/
theorem undoMove_reverts_upto_two (s : UndoState) :
    (s.applied ≠ [] →
      (undoMove s).applied = s.applied.dropLast.dropLast ∧
      (undoMove s).moveHistory = s.moveHistory.dropLast) ∧
    (s.applied = [] → undoMove s = s) := by
  constructor
  · intro h
    cases hl : s.applied.getLast? with
    | none => exact absurd (List.getLast?_eq_none_iff.mp hl) h
    | some m =>
      have h1 : (chessUndo s.applied).1 = some m := by
        rw [chessUndo_fst, hl]
      simp only [undoMove, h1]
      simp [chessUndo_snd]
  · intro h
    have h1 : (chessUndo s.applied).1 = none := by
      rw [chessUndo_fst, h]
      rfl
    simp only [undoMove, h1]

theorem undoMove_reverts_upto_two_witness :
    undoSample3.applied ≠ [] ∧
    ((undoMove undoSample3).applied
        = undoSample3.applied.dropLast.dropLast ∧
      (undoMove undoSample3).moveHistory
        = undoSample3.moveHistory.dropLast) :=
  ⟨by decide, (undoMove_reverts_upto_two undoSample3).1 (by decide)⟩

/-- C8: the first human move correctly starts row "1.", but the second
human move also starts a row labeled "1." — `moveNumber` divides the
number of history ROWS by two, so the labels run 1,1,2,2,... instead
of 1,2,3,...; evaluated here at the failing input (history after one
completed row). -/
theorem updateMoveHistory_turn_number_eval :
    updateMoveHistory [] "e4" "player" = ["1. e4"] ∧
    updateMoveHistory ["1. e4"] "e5" "bot" = ["1. e4 e5"] ∧
    updateMoveHistory ["1. e4 e5"] "Nf3" "player"
      = ["1. e4 e5", "1. Nf3"] := by decide

/-- C9 counterexample: at a position with no legal moves, `suggestMove`
does not yield `none` — it never calls `setSuggestedMove`, so a
suggestion computed from an earlier position is retained. -/
theorem suggestMove_terminal_cex : suggestMove (some mvE4) [] ≠ none := by
  decide

/-- C9 amended: at a position with no legal moves, `suggestMove`
performs no update: the previously stored suggestion is returned
unchanged (it is not cleared to `none`). -/
theorem suggestMove_terminal_keeps_previous (prev : Option Move) :
    suggestMove prev [] = prev := rfl

theorem suggestMove_terminal_keeps_previous_witness :
    suggestMove (some mvA) [] = some mvA :=
  suggestMove_terminal_keeps_previous (some mvA)

/-- C10: `resetGame` restores the starting position and clears the
selection, move history, game status and error message, while leaving
the bot difficulty and the dark-mode setting unchanged. -/
theorem resetGame_frame (s : GameState) :
    (resetGame s).game = startFen ∧
    (resetGame s).selectedSquare = none ∧
    (resetGame s).moveHistory = [] ∧
    (resetGame s).gameStatus = "" ∧
    (resetGame s).errorMessage = "" ∧
    (resetGame s).botDifficulty = s.botDifficulty ∧
    (resetGame s).darkMode = s.darkMode :=
  ⟨rfl, rfl, rfl, rfl, rfl, rfl, rfl⟩

theorem resetGame_frame_witness :
    (resetGame sampleState).game = startFen ∧
    (resetGame sampleState).selectedSquare = none ∧
    (resetGame sampleState).moveHistory = [] ∧
    (resetGame sampleState).gameStatus = "" ∧
    (resetGame sampleState).errorMessage = "" ∧
    (resetGame sampleState).botDifficulty = sampleState.botDifficulty ∧
    (resetGame sampleState).darkMode = sampleState.darkMode :=
  resetGame_frame sampleState
